import Mathlib

/-!
Verification of the turn-buffer / debounce-scheduler core of a Telegram
chat-bot bridge.  The definitions below are a shallow embedding of the
Python classes `ChatState` and `BotApp` from `src/bot/app.py` together with
the relevant configuration defaults from `src/bot/config.py`.

Modelling conventions:
* Python `time.time()` values are injected as an explicit `now : ℚ` argument.
* A Python content part dict (`{"type": "text", ...}` or
  `{"type": "image_url", ...}`) becomes the inductive `Part`.
* Message content, which in Python is either a plain string or a list of
  part dicts, becomes the inductive `Content`.
* Python `dict.get` with its absent-key defaults is modelled by the
  `Payload` structure whose fields are `Option`-wrapped.
-/

namespace Bot

/-- Roles appearing in a chat turn (`"system"`, `"user"`, `"assistant"`). -/
inductive Role where
  | system
  | user
  | assistant
deriving DecidableEq, Repr

/-- One content part, as queued in `pending_parts`:
`{"type": "text", "text": t}` or
`{"type": "image_url", "image_url": {"url": u}}`. -/
inductive Part where
  | text (t : String)
  | image_url (url : String)
deriving DecidableEq, Repr

/-- Message content: the Python code stores either a bare string or a list
of part dicts. -/
inductive Content where
  | str (s : String)
  | parts (l : List Part)
deriving DecidableEq, Repr

/-- One chat turn `{"role": r, "content": c}`. -/
structure Message where
  role : Role
  content : Content
deriving DecidableEq, Repr

/-- The fixed system prompt (`SYSTEM_PROMPT` in `app.py`); its exact text is
irrelevant to the claims, only its identity as the distinguished system
turn matters, so it is abbreviated here. -/
def SYSTEM_PROMPT : String :=
  "Voce e um atendente virtual brasileiro, cordial e organizado, que responde sempre em portugues do Brasil."

/-- The system instruction turn placed at `messages[0]`. -/
def systemMessage : Message :=
  { role := Role.system, content := Content.str SYSTEM_PROMPT }

/-- `ChatState.MAX_HISTORY` from `app.py`. -/
def MAX_HISTORY : Nat := 10

/-- The dataclass `ChatState` from `app.py`. -/
structure ChatState where
  messages : List Message
  pending_parts : List Part
  last_message_id : Option Int
  last_update_ts : Option ℚ
  waiting_reply : Bool
deriving DecidableEq, Repr

/-- `ChatState.reset` / `__post_init__`: a freshly initialised state. -/
def freshState : ChatState :=
  { messages := [systemMessage]
    pending_parts := []
    last_message_id := none
    last_update_ts := none
    waiting_reply := false }

/-- `ChatState.reset` on an existing state (all fields overwritten). -/
def ChatState.reset (_s : ChatState) : ChatState := freshState

/-- `ChatState._trim`: keep `messages[0]` and the last `MAX_HISTORY`
entries of the rest.  The Python code indexes `messages[0]`, so the empty
case is unreachable there; we return `[]` to keep the function total. -/
def trim (messages : List Message) : List Message :=
  match messages with
  | [] => []
  | sys :: history =>
      if MAX_HISTORY < history.length then
        sys :: history.drop (history.length - MAX_HISTORY)
      else
        sys :: history

/-- The shared append-then-`_trim` step used by `add_assistant` and
`consume_pending`. -/
def append_turn (s : ChatState) (m : Message) : ChatState :=
  { s with messages := trim (s.messages ++ [m]) }

/-- `ChatState._queue_part`. -/
def ChatState.queue_part (s : ChatState) (part : Part) (now : ℚ) : ChatState :=
  { s with pending_parts := s.pending_parts ++ [part]
           last_update_ts := some now
           waiting_reply := true }

/-- Python `str.strip()`: removes leading and trailing whitespace
characters (modelled on `Char.isWhitespace`, computable on the character
list underlying the string). -/
def pyStrip (s : String) : String :=
  ⟨((s.data.dropWhile Char.isWhitespace).reverse.dropWhile Char.isWhitespace).reverse⟩

/-- `ChatState.queue_text`: strip, drop if empty, else queue a text part. -/
def ChatState.queue_text (s : ChatState) (content : String) (now : ℚ) : ChatState :=
  let text := pyStrip content
  if text = "" then s
  else s.queue_part (Part.text text) now

/-- Python truthiness of an `Optional[str]` (`None` and `""` are falsy). -/
def optStrTruthy : Option String → Bool
  | none => false
  | some s => s ≠ ""

/-- `ChatState.queue_image`: queue the caption first when truthy, then the
image part with its data URL. -/
def ChatState.queue_image (s : ChatState) (image_b64 : String)
    (caption : Option String) (mime_type : String) (now : ℚ) : ChatState :=
  let s1 := if optStrTruthy caption then s.queue_text (caption.getD "") now else s
  let data_url := "data:" ++ mime_type ++ ";base64," ++ image_b64
  s1.queue_part (Part.image_url data_url) now

/-- `ChatState.add_assistant`. -/
def ChatState.add_assistant (s : ChatState) (content : String) : ChatState :=
  append_turn s { role := Role.assistant, content := Content.str content }

/-- The flush of the accumulated `text_buffer` inside `consume_pending`:
`merged_parts.append({"type": "text", "text": "\n".join(text_buffer)})`
guarded by `if text_buffer`. -/
def flushBuf (buf : List String) : List Part :=
  if buf = [] then [] else [Part.text (String.intercalate "\n" buf)]

/-- The merging loop of `ChatState.consume_pending`: walks the pending
parts carrying the current run of text fragments in `buf`. -/
def mergeGo : List Part → List String → List Part
  | [], buf => flushBuf buf
  | Part.text t :: rest, buf => mergeGo rest (buf ++ [t])
  | p :: rest, buf => flushBuf buf ++ p :: mergeGo rest []

/-- The content constructed by `consume_pending` from the merged parts:
a bare string when the merge produced a single text part, otherwise the
part list itself. -/
def mergedContent (parts : List Part) : Content :=
  match mergeGo parts [] with
  | [Part.text t] => Content.str t
  | l => Content.parts l

/-- `ChatState.consume_pending`: returns the drained user turn (or `none`)
together with the updated state. -/
def ChatState.consume_pending (s : ChatState) : Option Message × ChatState :=
  if s.pending_parts = [] then (none, s)
  else
    let message : Message := { role := Role.user, content := mergedContent s.pending_parts }
    let s1 := { s with pending_parts := ([] : List Part), waiting_reply := false }
    (some message, append_turn s1 message)

/-- `ChatState.should_flush`. -/
def ChatState.should_flush (s : ChatState) (buffer_seconds : ℚ) (now : ℚ) : Bool :=
  if !s.waiting_reply || s.pending_parts = [] then false
  else
    match s.last_update_ts with
    | none => false
    | some ts => decide (buffer_seconds ≤ now - ts)

/-- The persisted payload dictionary as read back by `from_dict`: each field
is `Option`-wrapped because `dict.get` yields `None`/a default when the key
is absent (a stored JSON `null` and an absent key are indistinguishable to
`dict.get(key)`, hence the flattened `Option` for the nullable fields). -/
structure Payload where
  messages : Option (List Message)
  pending_parts : Option (List Part)
  last_message_id : Option Int
  last_update_ts : Option ℚ
  waiting_reply : Option Bool
deriving DecidableEq, Repr

/-- `ChatState.to_dict`. -/
def ChatState.to_dict (s : ChatState) : Payload :=
  { messages := some s.messages
    pending_parts := some s.pending_parts
    last_message_id := s.last_message_id
    last_update_ts := s.last_update_ts
    waiting_reply := some s.waiting_reply }

/-- `ChatState.from_dict`: `payload.get("messages") or [system turn]`
(`or` swallows both absence and the empty list), defaults for the other
fields, then `_trim`. -/
def ChatState.from_dict (payload : Payload) : ChatState :=
  let msgs :=
    match payload.messages with
    | none => [systemMessage]
    | some l => if l = [] then [systemMessage] else l
  { messages := trim msgs
    pending_parts := payload.pending_parts.getD []
    last_message_id := payload.last_message_id
    last_update_ts := payload.last_update_ts
    waiting_reply := payload.waiting_reply.getD false }

/-- The configuration defaults from `src/bot/config.py` that the scheduler
reads (`polling_timeout = 25`, `response_buffer_seconds = 2.5`). -/
structure Settings where
  polling_timeout : Int := 25
  response_buffer_seconds : ℚ := 5 / 2
deriving DecidableEq, Repr

/-- Python `int()` applied to a float: truncation toward zero. -/
def pyInt (q : ℚ) : Int :=
  if 0 ≤ q then ⌊q⌋ else ⌈q⌉

/-- `BotApp._select_timeout`: the in-memory chat-state map is modelled by
the list of its values. -/
def select_timeout (states : List ChatState) (settings : Settings) : Int :=
  if states.any (fun s => s.waiting_reply) then
    min settings.polling_timeout (max 1 (pyInt settings.response_buffer_seconds))
  else
    settings.polling_timeout

/-- `BotApp._append_context_to_message`, acting on the message's content.
The Python function mutates `message["content"]`; the final fallback branch
(content neither `str` nor `list`) is unreachable for our typed `Content`. -/
def append_context_to_content (content : Content) (context : String) : Content :=
  if context = "" then content
  else
    match content with
    | Content.str s => if s = "" then Content.str context else Content.str (s ++ "\n\n" ++ context)
    | Content.parts l => Content.parts (l ++ [Part.text context])

/-- Applies `_append_context_to_message` to the drained message dict.  In
Python the drained dict is the very object `consume_pending` appended to
`state.messages`, so mutating it also rewrites the last history entry. -/
def updateLastContent (f : Content → Content) : List Message → List Message
  | [] => []
  | [m] => [{ m with content := f m.content }]
  | m :: m2 :: rest => m :: updateLastContent f (m2 :: rest)

/-- The fallback notice sent on an OpenAI failure in `_reply_with_buffer`. -/
def FALLBACK_TEXT : String :=
  "Tive um problema para falar com a IA agora. Tente novamente em instantes ou envie a mensagem mais tarde."

/-- Outcome of the model collaborator call (`self.openai.generate_reply`):
either a reply string or an exception. -/
inductive ModelResult where
  | ok (reply : String)
  | error
deriving DecidableEq, Repr

/-- One outbound `send_message(chat_id, text, reply_to=...)` call, recorded
as (text, reply_to). -/
abbrev Outbound := String × Option Int

/-- The `if context: self._append_context_to_message(message, context)`
step of `_reply_with_buffer`: in Python the drained message dict sits at
the end of `state.messages`, so mutating its content rewrites the last
history entry. -/
def applyContext (s : ChatState) (context : Option String) : ChatState :=
  match context with
  | none => s
  | some c =>
      if c = "" then s
      else { s with messages :=
        updateLastContent (fun co => append_context_to_content co c) s.messages }

/-- `BotApp._reply_with_buffer` for one conversation.  External
collaborators are injected: `context` is the result of
`_build_realtime_context` (`none`/empty when no augmentation applies) and
`result` is the outcome of the OpenAI call.  Persistence and the typing
chat action do not affect the conversation state and are not recorded;
the returned list holds the `send_message` calls made. -/
def reply_with_buffer (s : ChatState) (context : Option String)
    (result : ModelResult) : ChatState × List Outbound :=
  match s.consume_pending with
  | (none, _) => (s, [])
  | (some _, s1) =>
      let s2 := applyContext s1 context
      match result with
      | ModelResult.error => (s2, [(FALLBACK_TEXT, s2.last_message_id)])
      | ModelResult.ok reply =>
          let s3 := s2.add_assistant reply
          (s3, [(reply, s3.last_message_id)])

/-- The maximal leading run of text fragments of a part list, together with
the remainder (first part of the remainder, if any, is not a text part). -/
def textRun : List Part → List String × List Part
  | [] => ([], [])
  | Part.text t :: rest =>
      let p := textRun rest
      (t :: p.1, p.2)
  | p :: rest => ([], p :: rest)

/-- The merge rule as the specification words it: walk the sequence,
replace each maximal run of consecutive text segments by one text segment
joining the run with a newline, and keep every other segment in place. -/
def specMergeRuns : List Part → List Part
  | [] => []
  | Part.text t :: rest =>
      let p := textRun rest
      Part.text (String.intercalate "\n" (t :: p.1)) :: specMergeRuns p.2
  | p :: rest => p :: specMergeRuns rest
termination_by l => l.length
decreasing_by
  · have hle : (textRun rest).2.length ≤ rest.length := by
      induction rest with
      | nil => simp [textRun]
      | cons q r ih =>
          cases q with
          | text t2 => simpa [textRun] using Nat.le_succ_of_le ih
          | image_url u => simp [textRun]
    exact Nat.lt_succ_of_le hle
  · simp

/-- The reachable conversation states: those produced from a fresh state by
the operations the application performs on a `ChatState` (`reset`,
`queue_text`, `queue_image`, `consume_pending`, `add_assistant`, setting
`last_message_id` on an inbound message, and rehydration of a payload this
program stored with `to_dict`). -/
inductive Reachable : ChatState → Prop where
  | fresh : Reachable freshState
  | reset (s : ChatState) : Reachable s → Reachable s.reset
  | queue_text (s : ChatState) (c : String) (now : ℚ) :
      Reachable s → Reachable (s.queue_text c now)
  | queue_image (s : ChatState) (b : String) (cap : Option String)
      (mime : String) (now : ℚ) :
      Reachable s → Reachable (s.queue_image b cap mime now)
  | consume (s : ChatState) : Reachable s → Reachable s.consume_pending.2
  | add_assistant (s : ChatState) (c : String) :
      Reachable s → Reachable (s.add_assistant c)
  | set_last_message (s : ChatState) (mid : Int) :
      Reachable s → Reachable { s with last_message_id := some mid }
  | rehydrate (s : ChatState) :
      Reachable s → Reachable (ChatState.from_dict s.to_dict)

/-- A concrete test vector: one pending text fragment "Oi" received as
inbound message 7 at time 100. -/
def sampleBuffered : ChatState :=
  { messages := [systemMessage]
    pending_parts := [Part.text "Oi"]
    last_message_id := some 7
    last_update_ts := some 100
    waiting_reply := true }

/-- A concrete test vector whose pending sequence mixes a text run with an
image and a trailing text fragment. -/
def sampleMixed : ChatState :=
  { messages := [systemMessage]
    pending_parts := [Part.text "a", Part.text "b", Part.image_url "img", Part.text "c"]
    last_message_id := some 3
    last_update_ts := some 5
    waiting_reply := true }

/-- A stored payload with every field absent. -/
def emptyPayload : Payload :=
  { messages := none
    pending_parts := none
    last_message_id := none
    last_update_ts := none
    waiting_reply := none }

theorem textRun_snd_length_le : ∀ l : List Part, (textRun l).2.length ≤ l.length := by
  intro l
  induction l with
  | nil => simp [textRun]
  | cons p rest ih =>
      cases p with
      | text t => simpa [textRun] using Nat.le_succ_of_le ih
      | image_url u => simp [textRun]

theorem specMergeRuns_textRun (l : List Part) :
    specMergeRuns l = flushBuf (textRun l).1 ++ specMergeRuns (textRun l).2 := by
  match l with
  | [] => simp [specMergeRuns, textRun, flushBuf]
  | Part.text t :: rest => simp [specMergeRuns, textRun, flushBuf]
  | Part.image_url u :: rest => simp [specMergeRuns, textRun, flushBuf]

theorem mergeGo_eq_textRun :
    ∀ (l : List Part) (buf : List String),
      mergeGo l buf = flushBuf (buf ++ (textRun l).1) ++ specMergeRuns (textRun l).2 := by
  intro l
  induction l with
  | nil => intro buf; simp [mergeGo, textRun, specMergeRuns]
  | cons p rest ih =>
      intro buf
      cases p with
      | text t =>
          have h := ih (buf ++ [t])
          simp only [mergeGo, textRun] at *
          simpa using h
      | image_url u =>
          have h := ih []
          simp only [mergeGo, textRun, List.nil_append] at *
          rw [h, ← specMergeRuns_textRun rest]
          simp [specMergeRuns]

/-- The accumulator loop of `consume_pending` computes exactly the
run-merge described by the specification. -/
theorem mergeGo_eq_specMergeRuns (l : List Part) :
    mergeGo l [] = specMergeRuns l := by
  rw [mergeGo_eq_textRun l []]
  simp only [List.nil_append]
  rw [← specMergeRuns_textRun l]

theorem trim_cons (sys : Message) (h : List Message) :
    trim (sys :: h) =
      if MAX_HISTORY < h.length then sys :: h.drop (h.length - MAX_HISTORY)
      else sys :: h := rfl

theorem trim_head (l : List Message) : (trim l).head? = l.head? := by
  cases l with
  | nil => rfl
  | cons sys h =>
      rw [trim_cons]
      split <;> rfl

theorem trim_eq_self_of_le {sys : Message} {h : List Message}
    (hle : h.length ≤ MAX_HISTORY) : trim (sys :: h) = sys :: h := by
  rw [trim_cons, if_neg (by omega)]

theorem trim_cons_of_lt {sys : Message} {h : List Message}
    (hlt : MAX_HISTORY < h.length) :
    trim (sys :: h) = sys :: h.drop (h.length - MAX_HISTORY) := by
  rw [trim_cons, if_pos hlt]

theorem trim_idem (l : List Message) : trim (trim l) = trim l := by
  cases l with
  | nil => rfl
  | cons sys h =>
      by_cases hc : MAX_HISTORY < h.length
      · rw [trim_cons_of_lt hc, trim_eq_self_of_le]
        simp only [List.length_drop]
        omega
      · rw [trim_eq_self_of_le (by omega), trim_eq_self_of_le (by omega)]

/-- After any sequence of append-then-trim steps starting from the fresh
state, the history is the system turn followed by the most recent
`MAX_HISTORY` appended turns (all of them while fewer were appended),
in their original relative order. -/
theorem foldl_append_turn_messages (ms : List Message) :
    (ms.foldl append_turn freshState).messages =
      systemMessage :: ms.drop (ms.length - MAX_HISTORY) := by
  induction ms using List.reverseRecOn with
  | nil => rfl
  | append_singleton ms m ih =>
      rw [List.foldl_append, List.foldl_cons, List.foldl_nil]
      show trim ((ms.foldl append_turn freshState).messages ++ [m]) =
        systemMessage :: (ms ++ [m]).drop ((ms ++ [m]).length - MAX_HISTORY)
      rw [ih]
      by_cases hc : ms.length < MAX_HISTORY
      · have h0 : ms.length - MAX_HISTORY = 0 := by omega
        have h1 : (ms ++ [m]).length - MAX_HISTORY = 0 := by
          simp only [List.length_append, List.length_singleton]
          omega
        rw [h0, h1, List.drop_zero, List.drop_zero, List.cons_append,
          trim_eq_self_of_le (by simp; omega)]
      · push_neg at hc
        have hM : MAX_HISTORY = 10 := rfl
        have hdl : (ms.drop (ms.length - MAX_HISTORY)).length = MAX_HISTORY := by
          rw [List.length_drop]
          omega
        have hlen : (ms.drop (ms.length - MAX_HISTORY) ++ [m]).length =
            MAX_HISTORY + 1 := by
          rw [List.length_append, hdl]
          rfl
        have hidx : (ms.drop (ms.length - MAX_HISTORY) ++ [m]).length -
            MAX_HISTORY = 1 := by omega
        have hidx2 : (ms ++ [m]).length - MAX_HISTORY =
            ms.length - MAX_HISTORY + 1 := by
          rw [List.length_append]
          simp only [List.length_cons, List.length_nil]
          omega
        rw [List.cons_append, trim_cons_of_lt (by omega), hidx,
          List.drop_append_of_le_length (by omega), List.drop_drop, hidx2,
          List.drop_append_of_le_length (by omega)]

theorem trim_append_last (x : List Message) (m : Message) :
    ∃ y, trim (x ++ [m]) = y ++ [m] := by
  cases x with
  | nil =>
      refine ⟨[], ?_⟩
      rw [List.nil_append]
      exact trim_eq_self_of_le (by simp [MAX_HISTORY])
  | cons sys xs =>
      by_cases hc : MAX_HISTORY < (xs ++ [m]).length
      · have hM : MAX_HISTORY = 10 := rfl
        have hlen : (xs ++ [m]).length = xs.length + 1 := by
          rw [List.length_append]
          rfl
        refine ⟨sys :: xs.drop ((xs ++ [m]).length - MAX_HISTORY), ?_⟩
        rw [List.cons_append, trim_cons_of_lt hc,
          List.drop_append_of_le_length (by omega), List.cons_append]
      · exact ⟨sys :: xs, by rw [List.cons_append, trim_eq_self_of_le (by omega)]⟩

theorem updateLastContent_append (f : Content → Content) :
    ∀ (y : List Message) (m : Message),
      updateLastContent f (y ++ [m]) = y ++ [{ m with content := f m.content }]
  | [], m => rfl
  | [a], m => rfl
  | a :: b :: y, m => by
      show a :: updateLastContent f (b :: (y ++ [m])) =
        a :: (b :: y ++ [{ m with content := f m.content }])
      rw [show b :: (y ++ [m]) = (b :: y) ++ [m] from rfl,
        updateLastContent_append f (b :: y) m]

/-- The non-empty-pending branch of `consume_pending`, spelled out. -/
theorem consume_pending_of_ne {s : ChatState} (h : s.pending_parts ≠ []) :
    s.consume_pending =
      (some { role := Role.user, content := mergedContent s.pending_parts },
       { s with
          pending_parts := ([] : List Part)
          waiting_reply := false
          messages := trim (s.messages ++
            [{ role := Role.user, content := mergedContent s.pending_parts }]) }) := by
  unfold ChatState.consume_pending
  rw [if_neg h]
  rfl

theorem consume_pending_of_empty {s : ChatState} (h : s.pending_parts = []) :
    s.consume_pending = (none, s) := by
  unfold ChatState.consume_pending
  rw [if_pos h]

/-- In every reachable state the pending buffer is empty exactly when the
state is not awaiting a flush. -/
theorem reachable_pending_iff {s : ChatState} (h : Reachable s) :
    s.pending_parts = [] ↔ s.waiting_reply = false := by
  induction h with
  | fresh => simp [freshState]
  | reset s _ _ => simp [ChatState.reset, freshState]
  | queue_text s c now _ ih =>
      by_cases hc : pyStrip c = ""
      · simpa [ChatState.queue_text, hc] using ih
      · simp [ChatState.queue_text, hc, ChatState.queue_part]
  | queue_image s b cap mime now _ _ =>
      simp [ChatState.queue_image, ChatState.queue_part]
  | consume s _ ih =>
      by_cases hc : s.pending_parts = []
      · rw [consume_pending_of_empty hc]
        exact ih
      · rw [consume_pending_of_ne hc]
        simp
  | add_assistant s c _ ih => simpa [ChatState.add_assistant, append_turn] using ih
  | set_last_message s mid _ ih => simpa using ih
  | rehydrate s _ ih => simpa [ChatState.from_dict, ChatState.to_dict] using ih

/-- C1: for every non-empty pending sequence, `consume_pending` returns a
user-role turn whose content is the run-merge of the pending segments
(consecutive text segments joined with a newline, relative order of text
and image segments preserved), as a bare string when the merge yields a
single text segment and as the ordered segment sequence otherwise. -/
theorem C1_drain_merges_runs (s : ChatState) (h : s.pending_parts ≠ []) :
    s.consume_pending.1 =
      some { role := Role.user
             content :=
               match specMergeRuns s.pending_parts with
               | [Part.text t] => Content.str t
               | l => Content.parts l } := by
  rw [consume_pending_of_ne h]
  simp only [mergedContent, mergeGo_eq_specMergeRuns]

/-- C1 witness: draining `[text "a", text "b", image, text "c"]` yields the
segment sequence `[text "a\nb", image, text "c"]`. -/
theorem C1_witness :
    sampleMixed.consume_pending.1 =
      some { role := Role.user
             content := Content.parts
               [Part.text "a\nb", Part.image_url "img", Part.text "c"] } := by
  rw [C1_drain_merges_runs sampleMixed (by simp [sampleMixed])]
  simp only [sampleMixed, specMergeRuns, textRun]
  rfl

/-- C2 counterexample: with one buffered conversation,
`response_buffer_seconds = 2.5` and `polling_timeout = 25` (the defaults),
`_select_timeout` returns `2`, not `min 25 (max 1 ⌈2.5⌉) = 3`: Python's
`int()` truncates instead of taking the ceiling. -/
theorem C2_counterexample :
    select_timeout [sampleBuffered] {} = 2 ∧
    min (({} : Settings)).polling_timeout
        (max 1 ⌈(({} : Settings)).response_buffer_seconds⌉) = 3 := by
  constructor
  · have hfl : (⌊(5/2 : ℚ)⌋ : Int) = 2 := by
      rw [Int.floor_eq_iff]
      constructor <;> norm_num
    simp only [select_timeout, pyInt, sampleBuffered, List.any_cons, List.any_nil]
    norm_num [hfl]
  · have hcl : (⌈(5/2 : ℚ)⌉ : Int) = 3 := by
      rw [Int.ceil_eq_iff]
      constructor <;> norm_num
    show min 25 (max 1 ⌈(5/2 : ℚ)⌉) = 3
    rw [hcl]
    norm_num

/-- C2 (amended): whenever at least one conversation is awaiting a flush,
the selected poll timeout equals
`min(default_timeout, max(1, trunc(buffer_window)))` — truncation toward
zero (Python `int()`), which is the floor for the non-negative windows the
configuration admits — and with no conversation pending it equals
`default_timeout`. -/
theorem C2_amended_select_timeout (states : List ChatState)
    (settings : Settings) (hb : 0 ≤ settings.response_buffer_seconds) :
    ((∃ s ∈ states, s.waiting_reply = true) →
        select_timeout states settings =
          min settings.polling_timeout
            (max 1 ⌊settings.response_buffer_seconds⌋)) ∧
    ((∀ s ∈ states, s.waiting_reply = false) →
        select_timeout states settings = settings.polling_timeout) := by
  unfold select_timeout pyInt
  rw [if_pos hb]
  constructor
  · intro hex
    rw [if_pos (List.any_eq_true.mpr (by simpa using hex))]
  · intro hall
    rw [if_neg ?_]
    simp only [List.any_eq_true, not_exists]
    intro s
    simp only [not_and]
    intro hs
    simp [hall s hs]

/-- C2 witness: instantiating the amended statement at the defaults with
one buffered conversation gives `2`, and with none gives `25`. -/
theorem C2_witness :
    select_timeout [sampleBuffered] {} =
      min (({} : Settings)).polling_timeout
        (max 1 ⌊(({} : Settings)).response_buffer_seconds⌋) ∧
    select_timeout ([] : List ChatState) {} =
      (({} : Settings)).polling_timeout :=
  ⟨(C2_amended_select_timeout [sampleBuffered] {} (by norm_num)).1
      ⟨sampleBuffered, by simp, rfl⟩,
   (C2_amended_select_timeout [] {} (by norm_num)).2 (by simp)⟩

/-- C3: after appending `MAX_HISTORY + k` non-system turns to a fresh
state, exactly the most recent `MAX_HISTORY` remain after the system turn,
in original relative order, and trimming never changes the head entry. -/
theorem C3_history_trimming :
    (∀ ms : List Message, MAX_HISTORY ≤ ms.length →
        (ms.foldl append_turn freshState).messages =
          systemMessage :: ms.drop (ms.length - MAX_HISTORY)) ∧
    (∀ l : List Message, (trim l).head? = l.head?) :=
  ⟨fun ms _ => foldl_append_turn_messages ms, trim_head⟩

/-- C3 witness: appending 11 user turns leaves the 10 most recent after
the system turn. -/
theorem C3_witness :
    ((List.replicate 11 { role := Role.user, content := Content.str "m" }).foldl
        append_turn freshState).messages =
      systemMessage ::
        List.replicate 10 { role := Role.user, content := Content.str "m" } := by
  rw [C3_history_trimming.1 _ (by simp [MAX_HISTORY])]
  rfl

/-- C4: `should_flush` is true iff the state awaits a flush with a
non-empty pending buffer, a set `last_update_ts`, and
`now - last_update_ts ≥ buffer_seconds` (boundary-inclusive). -/
theorem C4_should_flush_iff (s : ChatState) (b now : ℚ) :
    s.should_flush b now = true ↔
      (s.waiting_reply = true ∧ s.pending_parts ≠ [] ∧
        ∃ ts, s.last_update_ts = some ts ∧ b ≤ now - ts) := by
  unfold ChatState.should_flush
  by_cases hw : s.waiting_reply
  · by_cases hp : s.pending_parts = []
    · simp [hw, hp]
    · cases hts : s.last_update_ts with
      | none => simp [hw, hp, hts]
      | some ts => simp [hw, hp, hts]
  · simp [hw]

theorem applyContext_fields (s : ChatState) (c : Option String) :
    (applyContext s c).pending_parts = s.pending_parts ∧
    (applyContext s c).waiting_reply = s.waiting_reply ∧
    (applyContext s c).last_message_id = s.last_message_id := by
  cases c with
  | none => exact ⟨rfl, rfl, rfl⟩
  | some cs =>
      by_cases hc : cs = ""
      · simp [applyContext, hc]
      · simp [applyContext, hc]

theorem applyContext_messages_last (s : ChatState) (c : Option String)
    (y : List Message) (m : Message) (hm : s.messages = y ++ [m]) :
    ∃ c2 : Content,
      (applyContext s c).messages = y ++ [{ role := m.role, content := c2 }] := by
  cases c with
  | none =>
      refine ⟨m.content, ?_⟩
      show s.messages = y ++ [{ role := m.role, content := m.content }]
      rw [hm]
  | some cs =>
      by_cases hc : cs = ""
      · refine ⟨m.content, ?_⟩
        show (if cs = "" then s
            else { s with messages :=
              updateLastContent (fun co => append_context_to_content co cs) s.messages }).messages =
          y ++ [{ role := m.role, content := m.content }]
        rw [if_pos hc, hm]
      · refine ⟨append_context_to_content m.content cs, ?_⟩
        show (if cs = "" then s
            else { s with messages :=
              updateLastContent (fun co => append_context_to_content co cs) s.messages }).messages =
          y ++ [{ role := m.role, content := append_context_to_content m.content cs }]
        rw [if_neg hc]
        show updateLastContent (fun co => append_context_to_content co cs) s.messages = _
        rw [hm, updateLastContent_append]

theorem reply_with_buffer_error (s : ChatState) (context : Option String)
    (h : s.pending_parts ≠ []) :
    reply_with_buffer s context ModelResult.error =
      (applyContext s.consume_pending.2 context,
       [(FALLBACK_TEXT,
         (applyContext s.consume_pending.2 context).last_message_id)]) := by
  unfold reply_with_buffer
  rw [consume_pending_of_ne h]

/-- C5: when the model collaborator raises during a flush, the drained
user turn stays as the last history entry (its content possibly extended
with the real-time context), no assistant turn is appended, exactly one
fallback notice is sent addressed to the conversation's last inbound
message id, and the state is left non-pending. -/
theorem C5_model_failure (s : ChatState) (context : Option String)
    (h : s.pending_parts ≠ []) :
    (reply_with_buffer s context ModelResult.error).2 =
      [(FALLBACK_TEXT, s.last_message_id)] ∧
    (reply_with_buffer s context ModelResult.error).1.pending_parts = [] ∧
    (reply_with_buffer s context ModelResult.error).1.waiting_reply = false ∧
    ∃ c : Content,
      (reply_with_buffer s context ModelResult.error).1.messages =
        s.consume_pending.2.messages.dropLast ++
          [{ role := Role.user, content := c }] := by
  have hcons := consume_pending_of_ne h
  have hr := reply_with_buffer_error s context h
  have hfields := applyContext_fields s.consume_pending.2 context
  have hlast : (applyContext s.consume_pending.2 context).last_message_id =
      s.last_message_id := by
    rw [hfields.2.2, hcons]
  obtain ⟨y, hy⟩ := trim_append_last s.messages
      { role := Role.user, content := mergedContent s.pending_parts }
  have hmsg : s.consume_pending.2.messages =
      y ++ [{ role := Role.user, content := mergedContent s.pending_parts }] := by
    rw [hcons]
    exact hy
  obtain ⟨c2, hc2⟩ := applyContext_messages_last s.consume_pending.2 context y _ hmsg
  refine ⟨?_, ?_, ?_, c2, ?_⟩
  · rw [hr, hlast]
  · rw [hr]
    show (applyContext s.consume_pending.2 context).pending_parts = []
    rw [hfields.1, hcons]
  · rw [hr]
    show (applyContext s.consume_pending.2 context).waiting_reply = false
    rw [hfields.2.1, hcons]
  · rw [hr]
    show (applyContext s.consume_pending.2 context).messages =
      s.consume_pending.2.messages.dropLast ++ [{ role := Role.user, content := c2 }]
    rw [hc2, hmsg, List.dropLast_concat]

/-- C5 witness: a buffered conversation with one pending fragment, no
real-time context, and a failing model call. -/
theorem C5_witness :
    (reply_with_buffer sampleBuffered none ModelResult.error).2 =
      [(FALLBACK_TEXT, sampleBuffered.last_message_id)] ∧
    (reply_with_buffer sampleBuffered none ModelResult.error).1.pending_parts = [] ∧
    (reply_with_buffer sampleBuffered none ModelResult.error).1.waiting_reply = false ∧
    ∃ c : Content,
      (reply_with_buffer sampleBuffered none ModelResult.error).1.messages =
        sampleBuffered.consume_pending.2.messages.dropLast ++
          [{ role := Role.user, content := c }] :=
  C5_model_failure sampleBuffered none (by simp [sampleBuffered])

/-- C6: in every reachable state (rehydration from stored payloads
included) a non-empty pending buffer implies `waiting_reply`, and a flush
leaves the pending buffer empty with `waiting_reply` false in the very
same step. -/
theorem C6_pending_invariant (s : ChatState) (h : Reachable s) :
    (s.pending_parts ≠ [] → s.waiting_reply = true) ∧
    s.consume_pending.2.pending_parts = [] ∧
    s.consume_pending.2.waiting_reply = false := by
  have inv := reachable_pending_iff h
  refine ⟨?_, ?_, ?_⟩
  · intro hp
    cases hw : s.waiting_reply with
    | false => exact absurd (inv.mpr hw) hp
    | true => rfl
  · by_cases hp : s.pending_parts = []
    · rw [consume_pending_of_empty hp]
      exact hp
    · rw [consume_pending_of_ne hp]
  · by_cases hp : s.pending_parts = []
    · rw [consume_pending_of_empty hp]
      exact inv.mp hp
    · rw [consume_pending_of_ne hp]

/-- C6 witness: the invariant at the reachable state obtained by queueing
one text fragment on a fresh state. -/
theorem C6_witness :
    ((freshState.queue_text "Oi" 0).pending_parts ≠ [] →
        (freshState.queue_text "Oi" 0).waiting_reply = true) ∧
    (freshState.queue_text "Oi" 0).consume_pending.2.pending_parts = [] ∧
    (freshState.queue_text "Oi" 0).consume_pending.2.waiting_reply = false :=
  C6_pending_invariant _ (Reachable.queue_text freshState "Oi" 0 Reachable.fresh)

/-- C7: `from_dict` after `to_dict` reproduces the state (for the states
the program stores: non-empty, already-trimmed history); deserialising a
payload whose turn list is absent or empty yields the fresh
system-turn-only history; and deserialisation always re-applies the
trimming policy. -/
theorem C7_serialization_roundtrip :
    (∀ s : ChatState, s.messages ≠ [] → trim s.messages = s.messages →
        ChatState.from_dict s.to_dict = s) ∧
    (∀ p : Payload, p.messages = none ∨ p.messages = some ([] : List Message) →
        (ChatState.from_dict p).messages = [systemMessage]) ∧
    (∀ p : Payload, trim (ChatState.from_dict p).messages =
        (ChatState.from_dict p).messages) := by
  have hfresh : trim [systemMessage] = [systemMessage] :=
    trim_eq_self_of_le (by simp [MAX_HISTORY])
  refine ⟨?_, ?_, ?_⟩
  · intro s h1 h2
    simp only [ChatState.from_dict, ChatState.to_dict, Option.getD_some]
    rw [if_neg h1, h2]
  · intro p hp
    cases hp with
    | inl hnone => simpa [ChatState.from_dict, hnone] using hfresh
    | inr hempty => simpa [ChatState.from_dict, hempty] using hfresh
  · intro p
    exact trim_idem _

/-- C7 witness: a concrete round-trip and the fallback on an empty
payload. -/
theorem C7_witness :
    ChatState.from_dict freshState.to_dict = freshState ∧
    (ChatState.from_dict emptyPayload).messages = [systemMessage] ∧
    trim (ChatState.from_dict emptyPayload).messages =
      (ChatState.from_dict emptyPayload).messages :=
  ⟨C7_serialization_roundtrip.1 freshState (by simp [freshState])
      (trim_eq_self_of_le (by simp [MAX_HISTORY])),
   C7_serialization_roundtrip.2.1 emptyPayload (Or.inl rfl),
   C7_serialization_roundtrip.2.2 emptyPayload⟩

/-- C8: `queue_text` is a no-op when the text strips to empty, and
otherwise appends one text segment, refreshes `last_update_ts` and sets
`waiting_reply`; `queue_image` with a truthy caption queues the caption
text first and then the image segment, so the caption's text segment
precedes the image segment in `pending_parts`, with the same side
effects. -/
theorem C8_append_ops :
    (∀ (s : ChatState) (c : String) (now : ℚ), pyStrip c = "" →
        s.queue_text c now = s) ∧
    (∀ (s : ChatState) (c : String) (now : ℚ), pyStrip c ≠ "" →
        (s.queue_text c now).pending_parts =
          s.pending_parts ++ [Part.text (pyStrip c)] ∧
        (s.queue_text c now).last_update_ts = some now ∧
        (s.queue_text c now).waiting_reply = true) ∧
    (∀ (s : ChatState) (b cap mime : String) (now : ℚ), cap ≠ "" →
        s.queue_image b (some cap) mime now =
          (s.queue_text cap now).queue_part
            (Part.image_url ("data:" ++ mime ++ ";base64," ++ b)) now) ∧
    (∀ (s : ChatState) (b cap mime : String) (now : ℚ), pyStrip cap ≠ "" →
        (s.queue_image b (some cap) mime now).pending_parts =
          s.pending_parts ++
            [Part.text (pyStrip cap),
             Part.image_url ("data:" ++ mime ++ ";base64," ++ b)] ∧
        (s.queue_image b (some cap) mime now).last_update_ts = some now ∧
        (s.queue_image b (some cap) mime now).waiting_reply = true) := by
  refine ⟨?_, ?_, ?_, ?_⟩
  · intro s c now hc
    simp [ChatState.queue_text, hc]
  · intro s c now hc
    simp [ChatState.queue_text, hc, ChatState.queue_part]
  · intro s b cap mime now hcap
    simp [ChatState.queue_image, optStrTruthy, hcap]
  · intro s b cap mime now hct
    have hcap : cap ≠ "" := by
      intro he
      apply hct
      rw [he]
      rfl
    simp [ChatState.queue_image, optStrTruthy, hcap, ChatState.queue_text,
      hct, ChatState.queue_part]

/-- C8 witness: concrete no-op, text append, and caption-then-image
ordering. -/
theorem C8_witness :
    freshState.queue_text " " 0 = freshState ∧
    (freshState.queue_text " Oi " 1).pending_parts =
      freshState.pending_parts ++ [Part.text (pyStrip " Oi ")] ∧
    (freshState.queue_image "IMG" (some "cap") "image/png" 2).pending_parts =
      freshState.pending_parts ++
        [Part.text (pyStrip "cap"),
         Part.image_url ("data:" ++ "image/png" ++ ";base64," ++ "IMG")] :=
  ⟨C8_append_ops.1 freshState " " 0 (by decide),
   (C8_append_ops.2.1 freshState " Oi " 1 (by decide)).1,
   (C8_append_ops.2.2.2 freshState "IMG" "cap" "image/png" 2 (by decide)).1⟩

/-- C9: on every reachable state, draining a second time with nothing
appended in between returns `none`, leaves the state unchanged, and leaves
`waiting_reply` false. -/
theorem C9_drain_idempotent (s : ChatState) (h : Reachable s) :
    s.consume_pending.2.consume_pending = (none, s.consume_pending.2) ∧
    s.consume_pending.2.waiting_reply = false := by
  by_cases hp : s.pending_parts = []
  · rw [consume_pending_of_empty hp]
    exact ⟨consume_pending_of_empty hp, (reachable_pending_iff h).mp hp⟩
  · rw [consume_pending_of_ne hp]
    exact ⟨consume_pending_of_empty rfl, rfl⟩

/-- C9 witness: double drain after queueing one fragment on a fresh
state. -/
theorem C9_witness :
    (freshState.queue_text "Oi" 0).consume_pending.2.consume_pending =
      (none, (freshState.queue_text "Oi" 0).consume_pending.2) ∧
    (freshState.queue_text "Oi" 0).consume_pending.2.waiting_reply = false :=
  C9_drain_idempotent _ (Reachable.queue_text freshState "Oi" 0 Reachable.fresh)

/-- C10: appending a non-empty context preserves the user's original
content as a prefix: non-empty string content becomes the original string,
a blank-line separator and the context; segmented content gains one text
segment at the end with all original segments unchanged. -/
theorem C10_augmentation_append_only :
    (∀ (s ctx : String), ctx ≠ "" → s ≠ "" →
        append_context_to_content (Content.str s) ctx =
          Content.str (s ++ "\n\n" ++ ctx)) ∧
    (∀ (l : List Part) (ctx : String), ctx ≠ "" →
        append_context_to_content (Content.parts l) ctx =
          Content.parts (l ++ [Part.text ctx])) := by
  constructor
  · intro s ctx hctx hs
    simp [append_context_to_content, hctx, hs]
  · intro l ctx hctx
    simp [append_context_to_content, hctx]

/-- C10 witness: concrete string and segment-list augmentations. -/
theorem C10_witness :
    append_context_to_content (Content.str "Oi") "ctx" =
      Content.str ("Oi" ++ "\n\n" ++ "ctx") ∧
    append_context_to_content (Content.parts [Part.image_url "img"]) "ctx" =
      Content.parts [Part.image_url "img", Part.text "ctx"] :=
  ⟨C10_augmentation_append_only.1 "Oi" "ctx" (by decide) (by decide),
   C10_augmentation_append_only.2 [Part.image_url "img"] "ctx" (by decide)⟩

end Bot
